import Mathlib

/-!
Shallow embedding of `export_open_project.py` (OpenProject timesheet export).

The embedding translates, function by function, the data-acquisition and
normalization pipeline of the script: the ISO-8601 duration decoder
`iso_duration_to_hours`, the month range resolver `month_bounds`, the
entity id extractor `parse_entity_id`, the memoized custom-option resolver
`resolve_custom_option_value`, the paginated collection walker
`get_collection`, and the per-entry row construction done inline in `main`
(modelled here as `buildRow`).

Python library helpers used by the script are modelled as executable Lean
functions with the relevant CPython semantics:
  - `urlparsePath` models `urllib.parse.urlparse(href).path` (scheme,
    netloc, fragment, query and params handling as in CPython; `\d`-style
    unicode digits and unicode whitespace are restricted to ASCII).
  - `pyUrljoin` models `urllib.parse.urljoin` for the reference forms this
    API produces: empty reference, absolute URL with scheme,
    protocol-relative reference, absolute path, and a simple relative
    merge without dot-segment normalization.
  - `pyInt` models `int(str)` (optional surrounding whitespace, optional
    sign, digits with single interior underscores).
  - Python floats are idealized as exact rationals; `round(x, 2)` is
    modelled as exact rational rounding to hundredths (`round2`).  The
    tie-breaking mode of the float `round` is not modelled; no claim
    below depends on ties.
  - Network calls are modelled as explicit functions passed in
    (`fetch` for pages, `fetchValue` for option resources), failure as
    `Except`/`FetchError`, and the mutable per-session option cache as an
    association list threaded through explicitly.
-/

namespace OpenProjectExport

/-! ## Generic list and string helpers -/

/-- Splits leading decimal digits (ASCII) from a character list. -/
def takeDigits : List Char → List Char × List Char
  | [] => ([], [])
  | c :: cs =>
    if c.isDigit then
      let p := takeDigits cs
      (c :: p.1, p.2)
    else ([], c :: cs)

/-- Numeric value of a list of decimal digit characters. -/
def digitsVal (l : List Char) : ℕ :=
  l.foldl (fun acc c => 10 * acc + (c.toNat - '0'.toNat)) 0

/-- Splits a list at the first character satisfying `p`; `none` when no
character satisfies `p`. -/
def splitOnFirst (p : Char → Bool) : List Char → Option (List Char × List Char)
  | [] => none
  | c :: cs =>
    if p c then some ([], cs)
    else (splitOnFirst p cs).map (fun q => (c :: q.1, q.2))

/-- Drops characters satisfying `p` from both ends, like Python `str.strip`
with a fixed character class. -/
def stripWhile (p : Char → Bool) (l : List Char) : List Char :=
  (((l.dropWhile p).reverse.dropWhile p)).reverse

/-- Models Python `s.strip(c)` for a single strip character `c`. -/
def stripChar (c : Char) (s : String) : String :=
  String.mk (stripWhile (fun x => x == c) s.data)

/-- Models Python `s.split(sep)` for a one-character separator: splits on
every occurrence, keeping empty pieces; the result is always non-empty. -/
def pySplit (sep : Char) : List Char → List (List Char)
  | [] => [[]]
  | c :: cs =>
    if c = sep then [] :: pySplit sep cs
    else
      match pySplit sep cs with
      | [] => [[c]]
      | piece :: rest => (c :: piece) :: rest

/-- Splits a list on every character satisfying `p`, keeping empty
pieces; the result is always non-empty. -/
def splitWhen (p : Char → Bool) : List Char → List (List Char)
  | [] => [[]]
  | c :: cs =>
    if p c then [] :: splitWhen p cs
    else
      match splitWhen p cs with
      | [] => [[c]]
      | piece :: rest => (c :: piece) :: rest

/-- Joins pieces with a single space between them. -/
def joinWithSpace : List (List Char) → List Char
  | [] => []
  | [t] => t
  | t :: ts => t ++ ' ' :: joinWithSpace ts

/-- Models Python `" ".join(s.split())`: collapse every run of whitespace
to a single space and drop leading/trailing whitespace. -/
def collapseWs (s : String) : String :=
  String.mk (joinWithSpace
    ((splitWhen Char.isWhitespace s.data).filter (fun t => t ≠ [])))

/-- Models Python `s.strip()` (whitespace strip, ASCII whitespace). -/
def pyStripWs (s : String) : String :=
  String.mk (stripWhile Char.isWhitespace s.data)

/-- Python string truthiness fallback `a or b` for strings. -/
def pyOr (a b : String) : String :=
  if a = "" then b else a

/-! ## urllib.parse model -/

/-- Characters allowed in a URL scheme after the initial letter. -/
def isSchemeChar (c : Char) : Bool :=
  c.isAlphanum || c == '+' || c == '-' || c == '.'

/-- Models the scheme-splitting step of `urllib.parse.urlsplit`: if the
input has a `:` whose prefix is a non-empty valid scheme starting with an
ASCII letter, returns the (lowercased) scheme and the remainder. -/
def pySchemeSplit (l : List Char) : Option (List Char × List Char) :=
  match splitOnFirst (fun c => c == ':') l with
  | none => none
  | some (pre, rest) =>
    match pre with
    | [] => none
    | c :: _ =>
      if c.isAlpha && pre.all isSchemeChar then
        some (pre.map Char.toLower, rest)
      else none

/-- Schemes for which `urllib.parse.urlparse` splits `;params` off the
last path segment (the `uses_params` list, including the empty scheme). -/
def usesParams : List (List Char) :=
  ["", "ftp", "hdl", "prospero", "http", "imap", "https", "shttp", "rtsp",
   "rtspu", "sip", "sips", "mms", "sftp", "tel"].map String.data

/-- Models `_splitparams`: removes `;...` from the last path segment. -/
def pySplitParams (l : List Char) : List Char :=
  if l.contains '/' then
    let seg := (l.reverse.takeWhile (fun c => c != '/')).reverse
    match splitOnFirst (fun c => c == ';') seg with
    | none => l
    | some (pre, _) => l.take (l.length - seg.length + pre.length)
  else l.takeWhile (fun c => c != ';')

/-- Models `urllib.parse.urlparse(href).path`: strip the scheme, the
`//netloc` part, the `#fragment`, the `?query`, and (for schemes using
params) the `;params` of the last segment. -/
def urlparsePath (href : String) : String :=
  let l := href.data
  let sch : List Char × List Char :=
    match pySchemeSplit l with
    | some p => p
    | none => ([], l)
  let afterNet :=
    if sch.2.take 2 = ['/', '/'] then
      (sch.2.drop 2).dropWhile (fun c => !(c == '/' || c == '?' || c == '#'))
    else sch.2
  let noFrag := afterNet.takeWhile (fun c => c != '#')
  let path := noFrag.takeWhile (fun c => c != '?')
  if usesParams.contains sch.1 && path.contains ';' then
    String.mk (pySplitParams path)
  else String.mk path

/-- Scheme plus `//netloc` prefix of a base URL, used when joining an
absolute-path reference. -/
def schemeNetloc (base : String) : String :=
  let sch : List Char × List Char :=
    match pySchemeSplit base.data with
    | some p => (p.1 ++ [':'], p.2)
    | none => ([], base.data)
  if sch.2.take 2 = ['/', '/'] then
    String.mk (sch.1 ++ ['/', '/'] ++
      ((sch.2.drop 2).takeWhile (fun c => !(c == '/' || c == '?' || c == '#'))))
  else String.mk sch.1

/-- Base URL up to and including the last `/` of its pre-query path,
used for the (simplified) relative merge. -/
def baseDirOf (base : String) : String :=
  let core := (base.data.takeWhile (fun c => c != '#')).takeWhile (fun c => c != '?')
  if core.contains '/' then
    String.mk (core.take (core.length - (core.reverse.takeWhile (fun c => c != '/')).length))
  else String.mk core

/-- Models `urllib.parse.urljoin(base, url)` for the reference forms used
by the script: empty reference, reference with its own scheme, protocol
relative reference, absolute path, and a last-segment relative merge
(without dot-segment normalization, which the API links never need). -/
def pyUrljoin (base url : String) : String :=
  if url = "" then base
  else if (pySchemeSplit url.data).isSome then url
  else if url.data.take 2 = ['/', '/'] then
    match pySchemeSplit base.data with
    | some p => String.mk (p.1 ++ [':']) ++ url
    | none => url
  else if url.data.take 1 = ['/'] then schemeNetloc base ++ url
  else baseDirOf base ++ url

/-! ## Duration decoder (`iso_duration_to_hours`, source lines 17-30)

The regex `^P(?:\d+Y)?(?:\d+M)?(?:\d+D)?(?:T(?:(?P<h>\d+)H)?(?:(?P<m>\d+)M)?(?:(?P<s>\d+)S)?)?$`
is deterministic (digit runs are always followed by a non-digit unit
letter), so it is embedded as the sequential parser below. -/

/-- Tries to consume `digits` followed by the unit letter `u`; on failure
consumes nothing, like an optional regex group `(?:\d+u)?`. -/
def matchUnit (u : Char) (l : List Char) : Option ℕ × List Char :=
  match takeDigits l with
  | ([], _) => (none, l)
  | (d, c :: r) => if c = u then (some (digitsVal d), r) else (none, l)
  | (_, []) => (none, l)

/-- Parses the restricted ISO-8601 duration grammar of `ISO_DURATION_RE`,
returning the captured (hours, minutes, seconds) groups (0 when absent),
or `none` when the string does not match. -/
def parseIsoDuration (s : String) : Option (ℕ × ℕ × ℕ) :=
  match s.data with
  | 'P' :: l0 =>
    let y := matchUnit 'Y' l0
    let mo := matchUnit 'M' y.2
    let dd := matchUnit 'D' mo.2
    match dd.2 with
    | 'T' :: l1 =>
      let h := matchUnit 'H' l1
      let mi := matchUnit 'M' h.2
      let se := matchUnit 'S' mi.2
      match se.2 with
      | [] => some (h.1.getD 0, mi.1.getD 0, se.1.getD 0)
      | _ => none
    | [] => some (0, 0, 0)
    | _ => none
  | _ => none

/-- Models Python `round(x, 2)` on the idealized rational value. -/
def round2 (q : ℚ) : ℚ :=
  (round (q * 100) : ℚ) / 100

/-- Embeds `iso_duration_to_hours` (source lines 20-30): empty input and
non-matching input give 0.0, otherwise `round(h + m/60 + s/3600, 2)`. -/
def iso_duration_to_hours (s : String) : ℚ :=
  if s = "" then 0
  else
    match parseIsoDuration s with
    | none => 0
    | some (h, m, sec) => round2 ((h : ℚ) + (m : ℚ) / 60 + (sec : ℚ) / 3600)

/-! ## Date range resolver (`month_bounds`, source lines 32-37) -/

/-- Error raised by `month_bounds`; the Python code raises `ValueError`
(from `int()`, tuple unpacking, or `datetime.date`), which the spec calls
`InvalidMonthError`. -/
inductive InvalidMonthError where
  | invalidMonth
deriving DecidableEq, Repr

/-- Checks the tail of a Python integer literal: digits with single
interior underscores. -/
def pyIntTail : List Char → Bool
  | [] => true
  | '_' :: c :: r => c.isDigit && pyIntTail r
  | '_' :: [] => false
  | c :: r => c.isDigit && pyIntTail r

/-- Parses the digit part of a Python integer literal. -/
def pyDigitsU (l : List Char) : Option ℕ :=
  match l with
  | [] => none
  | c :: r =>
    if c.isDigit && pyIntTail r then
      some (digitsVal (List.filter (fun x => x != '_') (c :: r)))
    else none

/-- Models Python `int(s)` on strings: optional surrounding whitespace,
optional sign, decimal digits with single interior underscores (non-ASCII
digits are not modelled). -/
def pyInt (s : String) : Option ℤ :=
  match stripWhile Char.isWhitespace s.data with
  | '-' :: r => (pyDigitsU r).map (fun n => -(n : ℤ))
  | '+' :: r => (pyDigitsU r).map (fun n => (n : ℤ))
  | r => (pyDigitsU r).map (fun n => (n : ℤ))

/-- Models `year, month = map(int, ym.split("-"))`: exactly two pieces,
each a valid Python integer. -/
def pyParseYM (s : String) : Option (ℤ × ℤ) :=
  match pySplit '-' s.data with
  | [a, b] =>
    match pyInt (String.mk a), pyInt (String.mk b) with
    | some y, some m => some (y, m)
    | _, _ => none
  | _ => none

/-- Gregorian leap year test, as `calendar.isleap`. -/
def isleap (y : ℤ) : Bool :=
  y % 4 == 0 && (y % 100 != 0 || y % 400 == 0)

/-- Number of days in a month, as `calendar.monthrange(year, month)[1]`. -/
def daysInMonth (y m : ℤ) : ℤ :=
  if m = 2 then (if isleap y then 29 else 28)
  else if m = 4 ∨ m = 6 ∨ m = 9 ∨ m = 11 then 30
  else 31

/-- Models the `datetime.date(y, m, d)` constructor: validates
`1 ≤ y ≤ 9999` (MINYEAR/MAXYEAR), `1 ≤ m ≤ 12` and the day against the
days-in-month; out of range raises (here: `none`). -/
def pyDate (y m d : ℤ) : Option (ℤ × ℤ × ℤ) :=
  if 1 ≤ y ∧ y ≤ 9999 ∧ 1 ≤ m ∧ m ≤ 12 ∧ 1 ≤ d ∧ d ≤ daysInMonth y m then
    some (y, m, d)
  else none

/-- Embeds `month_bounds` (source lines 32-37): parse `"YYYY-MM"`, return
the first and last date of the month; any parse or range failure raises. -/
def month_bounds (ym : String) :
    Except InvalidMonthError ((ℤ × ℤ × ℤ) × (ℤ × ℤ × ℤ)) :=
  match pyParseYM ym with
  | none => .error .invalidMonth
  | some (y, m) =>
    match pyDate y m 1 with
    | none => .error .invalidMonth
    | some first =>
      match pyDate y m (daysInMonth y m) with
      | none => .error .invalidMonth
      | some last => .ok (first, last)

/-! ## Entity reference resolver (`parse_entity_id`, source lines 51-57) -/

/-- Embeds `parse_entity_id`: `urlparse(href).path.strip("/").split("/")[-1]`.
The Python `try/except` makes the function total (exceptions give `""`);
the embedding is total by construction. -/
def parse_entity_id (href : String) : String :=
  String.mk ((pySplit '/' (stripChar '/' (urlparsePath href)).data).getLastD [])

/-! ## Custom option resolver (`resolve_custom_option_value`, source lines 59-72)

The mutable `session._custom_opt_cache` dict is modelled as an association
list threaded explicitly (lookup finds the first matching key; the code
only ever inserts a key that is absent, so first-match lookup agrees with
the Python dict).  The successful network call
`session.get(urljoin(base, href)).json().get("value", "")` is modelled by
the function `fetchValue` applied to the joined URL.  The third component
of the result counts how many fetches the call performed. -/
def resolve_custom_option_value (fetchValue : String → String) (base : String)
    (cache : List (String × String)) (href : String) :
    String × List (String × String) × ℕ :=
  if href = "" then ("", cache, 0)
  else
    match List.lookup href cache with
    | some v => (v, cache, 0)
    | none =>
      let val := fetchValue (pyUrljoin base href)
      (val, cache ++ [(href, val)], 1)

/-! ## Paginated collection fetcher (`get_collection`, source lines 39-49) -/

/-- Failure of one page request: a non-2xx HTTP status
(`raise_for_status`) or a malformed payload (`r.json()` failing). -/
inductive FetchError where
  | httpError (status : ℕ)
  | malformedPayload
deriving DecidableEq, Repr

/-- One parsed page response. `elements` is the content of
`data["_embedded"]["elements"]` (`none` when either key is missing, which
`dict.get` defaults to `[]`); `nextHref` is
`data["_links"]["nextByOffset"]["href"]` (`none` when missing or null). -/
structure PageData (α : Type) where
  elements : Option (List α)
  nextHref : Option String
deriving DecidableEq, Repr

/-- The URL for the next loop iteration:
`urljoin(session.base_url, next_link) if next_link else None`, where an
empty or missing next link is falsy and stops the loop. -/
def nextUrl {α : Type} (base : String) (d : PageData α) : Option String :=
  match d.nextHref with
  | some s => if s = "" then none else some (pyUrljoin base s)
  | none => none

/-- Result of draining the generator: all elements yielded in order,
ending either normally, in a raised `FetchError`, or with the loop still
running when the fuel bound is hit (an artifact of the embedding; any
fuel at least the number of pages avoids it). -/
inductive FetchOutcome (α : Type) where
  | done (elems : List α)
  | failed (elems : List α) (e : FetchError)
  | fuelOut (elems : List α)
deriving DecidableEq, Repr

/-- Prepends elements yielded before the rest of the run. -/
def FetchOutcome.prepend {α : Type} (es : List α) : FetchOutcome α → FetchOutcome α
  | .done l => .done (es ++ l)
  | .failed l e => .failed (es ++ l) e
  | .fuelOut l => .fuelOut (es ++ l)

/-- Embeds `get_collection` (source lines 39-49): the `while url:` loop
that fetches a page, yields its elements in order, and follows the
(resolved) next link; a failing page request raises after the elements of
the earlier pages have been yielded.  `fuel` bounds the number of loop
iterations, mirroring that the loop only terminates because the server
chain of next links is finite. -/
def get_collection {α : Type} (fetch : String → Except FetchError (PageData α))
    (base : String) : Option String → ℕ → FetchOutcome α
  | none, _ => .done []
  | some _, 0 => .fuelOut []
  | some url, fuel + 1 =>
    match fetch url with
    | .error e => .failed [] e
    | .ok d => .prepend (d.elements.getD []) (get_collection fetch base (nextUrl base d) fuel)

/-- A finite chain of successful pages starting from `start`:
`pages` lists, page by page, the element list each page yields, and the
last page has no (truthy) next link. -/
inductive PageChain {α : Type} (fetch : String → Except FetchError (PageData α))
    (base : String) : Option String → List (List α) → Prop where
  | nil : PageChain fetch base none []
  | cons (u : String) (d : PageData α) (r : List (List α)) :
      fetch u = .ok d → PageChain fetch base (nextUrl base d) r →
      PageChain fetch base (some u) (d.elements.getD [] :: r)

/-- A chain of successful pages followed by one failing page request:
`pages` lists the element lists of the successful prefix, `e` the error
raised by the first failing request. -/
inductive FailChain {α : Type} (fetch : String → Except FetchError (PageData α))
    (base : String) : Option String → List (List α) → FetchError → Prop where
  | here (u : String) (e : FetchError) :
      fetch u = .error e → FailChain fetch base (some u) [] e
  | cons (u : String) (d : PageData α) (r : List (List α)) (e : FetchError) :
      fetch u = .ok d → FailChain fetch base (nextUrl base d) r e →
      FailChain fetch base (some u) (d.elements.getD [] :: r) e

/-! ## Row normalizer (inline in `main`, source lines 114-147) -/

/-- One entry of the `_links` object: an href and an inline title,
either possibly missing or null. -/
structure Link where
  href : Option String
  title : Option String
deriving DecidableEq, Repr

/-- One raw time entry, as the fields of the JSON record that `main`
reads.  `direct` holds the direct scalar custom-field properties of the
record (`cf_key in te` / `te.get(cf_key)`, with `none` for a null value);
the structural keys (`spentOn`, `hours`, `comment`, `_links`) are
modelled as the named fields and are not custom-field candidates. -/
structure TimeEntry where
  spentOn : Option String
  hours : Option String
  commentRaw : Option String
  links : List (String × Link)
  direct : List (String × Option String)
deriving DecidableEq, Repr

/-- One output row. -/
structure Row where
  date : Option String
  hours : ℚ
  location : String
  description : String
deriving DecidableEq, Repr

/-- Models `(links.get(k) or \x7b\x7d).get("href", "")` with a null href
also giving the falsy value. -/
def linkHrefOf (te : TimeEntry) (k : String) : String :=
  match List.lookup k te.links with
  | some l => l.href.getD ""
  | none => ""

/-- Models `entity = links.get("entity") or \x7b\x7d; entity.get("href", "")`. -/
def entityHrefOf (te : TimeEntry) : String :=
  linkHrefOf te "entity"

/-- Models `activity.get("title") or ""`. -/
def activityTitleOf (te : TimeEntry) : String :=
  match List.lookup "activity" te.links with
  | some l => pyOr (l.title.getD "") ""
  | none => ""

/-- Models the comment normalization
`((te.get("comment") or \x7b\x7d).get("raw") or ""; " ".join(comment.split())`. -/
def commentOf (te : TimeEntry) : String :=
  collapseWs (te.commentRaw.getD "")

/-- Models the three-tier Location computation of `main`
(source lines 128-139) for an already-stripped key, returning the
location together with the possibly-updated option cache. -/
def computeLocation (fetchValue : String → String) (base : String) (cfKey : String)
    (cache : List (String × String)) (te : TimeEntry) :
    String × List (String × String) :=
  if cfKey = "" then ("remote", cache)
  else
    match List.lookup cfKey te.direct with
    | some v => (pyOr (v.getD "") "remote", cache)
    | none =>
      let cfLink := linkHrefOf te cfKey
      if cfLink = "" then ("remote", cache)
      else
        let r := resolve_custom_option_value fetchValue base cache cfLink
        (pyOr r.1 "remote", r.2.1)

/-- Embeds the body of the `for te in get_collection(...)` loop of `main`
(source lines 114-147): builds one output row from one raw entry and
threads the option cache. -/
def buildRow (fetchValue : String → String) (base : String) (cfKeyRaw : String)
    (cache : List (String × String)) (te : TimeEntry) :
    Row × List (String × String) :=
  let hours := iso_duration_to_hours (te.hours.getD "")
  let locCache := computeLocation fetchValue base (pyStripWs cfKeyRaw) cache te
  let composed := stripChar '_'
    (parse_entity_id (entityHrefOf te) ++ "_" ++ activityTitleOf te ++ "_" ++ commentOf te)
  (⟨te.spentOn, hours, locCache.1, composed⟩, locCache.2)

/-- Modelled from the words of the spec sentence on description
composition (for comparison with the code): the three components joined
with `_`, then only the leading/trailing separators produced by empty
leading/trailing components removed, with component content untouched. -/
def specComposed (a b c : String) : String :=
  let joined := a ++ "_" ++ b ++ "_" ++ c
  let front : ℕ := if a = "" then (if b = "" then 2 else 1) else 0
  let back : ℕ := if c = "" then (if b = "" then 2 else 1) else 0
  String.mk ((joined.data.drop front).take (joined.data.length - front - back))

/-! ## Concrete fixtures used by witnesses and counterexamples -/

/-- The end-to-end example entry of the spec: spentOn 2024-03-05, hours
PT8H, comment with extra whitespace, entity work package 7, activity
titled Development, no custom field values. -/
def te_example : TimeEntry :=
  ⟨some "2024-03-05", some "PT8H", some "  Fixed   bug  ",
   [("entity", ⟨some "/api/v3/work_packages/7", none⟩),
    ("activity", ⟨none, some "Development"⟩)], []⟩

/-- Like `te_example` but with a comment whose own text ends in an
underscore, exercising the boundary-strip behaviour. -/
def te_cex : TimeEntry :=
  ⟨some "2024-03-05", some "PT8H", some "x_",
   [("entity", ⟨some "/api/v3/work_packages/7", none⟩),
    ("activity", ⟨none, some "Development"⟩)], []⟩

/-- An entry carrying the custom field as a direct scalar property. -/
def te_direct : TimeEntry :=
  ⟨some "2024-03-05", some "PT8H", none, [], [("customField7", some "Paris")]⟩

/-- An entry carrying the custom field as a link to an option resource. -/
def te_linked : TimeEntry :=
  ⟨some "2024-03-05", some "PT8H", none,
   [("customField7", ⟨some "/api/v3/custom_options/1", none⟩)], []⟩

/-- A constant option-resource fetch used by witnesses. -/
def mockOptionValue : String → String := fun _ => "Paris"

/-- A 3-page mock collection (pages of sizes 2, 2, 1; the last page has
no next link), keyed by the absolute URLs the fetcher visits. -/
def mockPages : String → Except FetchError (PageData ℕ) :=
  fun u =>
    if u = "https://op.example/p1" then .ok ⟨some [10, 11], some "/p2"⟩
    else if u = "https://op.example/p2" then .ok ⟨some [12, 13], some "/p3"⟩
    else if u = "https://op.example/p3" then .ok ⟨some [14], none⟩
    else .error (.httpError 404)

/-- A mock collection whose second page request fails. -/
def mockPagesFail : String → Except FetchError (PageData ℕ) :=
  fun u =>
    if u = "https://op.example/p1" then .ok ⟨some [10, 11], some "/p2"⟩
    else .error (.httpError 500)

/-! ## Helper lemmas -/

/-- Unfolds the duration decoder on a string the grammar accepts. -/
theorem iso_duration_eq_round2 (s : String) (h m sec : ℕ)
    (hp : parseIsoDuration s = some (h, m, sec)) :
    iso_duration_to_hours s = round2 ((h : ℚ) + (m : ℚ) / 60 + (sec : ℚ) / 3600) := by
  have hs : s ≠ "" := by
    intro he
    rw [he, show parseIsoDuration "" = none from rfl] at hp
    exact Option.noConfusion hp
  unfold iso_duration_to_hours
  rw [if_neg hs, hp]

/-- Unfolds the duration decoder on a string the grammar rejects. -/
theorem iso_duration_of_no_parse (s : String) (hp : parseIsoDuration s = none) :
    iso_duration_to_hours s = 0 := by
  by_cases hs : s = ""
  · rw [hs]; rfl
  · unfold iso_duration_to_hours
    rw [if_neg hs, hp]

/-- Every month has at least one day. -/
theorem one_le_daysInMonth (y m : ℤ) : 1 ≤ daysInMonth y m := by
  unfold daysInMonth
  split_ifs <;> norm_num

/-- A key already present keeps its binding after appending entries. -/
theorem lookup_append_left {k : String} {c c2 : List (String × String)} {v : String}
    (h : List.lookup k c = some v) : List.lookup k (c ++ c2) = some v := by
  induction c with
  | nil => exact Option.noConfusion h
  | cons p t ih =>
    obtain ⟨a, b⟩ := p
    rw [List.cons_append]
    by_cases hab : (k == a) = true
    · simp only [List.lookup, hab] at h ⊢
      exact h
    · simp only [List.lookup, Bool.eq_false_iff.mpr hab] at h ⊢
      exact ih h

/-- A key absent from the prefix is looked up in the appended entries. -/
theorem lookup_append_right {k : String} {c : List (String × String)}
    (c2 : List (String × String)) (h : List.lookup k c = none) :
    List.lookup k (c ++ c2) = List.lookup k c2 := by
  induction c with
  | nil => rfl
  | cons p t ih =>
    obtain ⟨a, b⟩ := p
    rw [List.cons_append]
    by_cases hab : (k == a) = true
    · simp only [List.lookup, hab] at h
      exact Option.noConfusion h
    · simp only [List.lookup, Bool.eq_false_iff.mpr hab] at h ⊢
      exact ih h

/-- The head surviving `dropWhile p` does not satisfy `p`. -/
theorem head?_dropWhile_false {p : Char → Bool} {a : Char} :
    ∀ l : List Char, (l.dropWhile p).head? = some a → p a = false := by
  intro l
  induction l with
  | nil => intro h; exact Option.noConfusion h
  | cons x xs ih =>
    intro h
    by_cases hx : p x = true
    · rw [List.dropWhile_cons, if_pos hx] at h
      exact ih h
    · rw [List.dropWhile_cons, if_neg hx] at h
      simp only [List.head?_cons, Option.some.injEq] at h
      rw [← h]
      exact Bool.eq_false_iff.mpr hx

/-- A non-empty suffix has the same last element as the whole list. -/
theorem getLast?_of_suffix {l₁ l₂ : List Char} {a : Char} (hs : l₁ <:+ l₂)
    (h : l₁.getLast? = some a) : l₂.getLast? = some a := by
  obtain ⟨t, rfl⟩ := hs
  rw [List.getLast?_append, h]
  rfl

/-- Unfolds `stripChar` to the underlying character-list strip. -/
theorem stripChar_data (c : Char) (s : String) :
    (stripChar c s).data = stripWhile (fun x => x == c) s.data := rfl

/-- The first character left by `stripWhile p` does not satisfy `p`. -/
theorem head?_stripWhile_false {p : Char → Bool} {a : Char} (l : List Char)
    (h : (stripWhile p l).head? = some a) : p a = false := by
  unfold stripWhile at h
  rw [List.head?_reverse] at h
  have h2 : ((l.dropWhile p).reverse).getLast? = some a :=
    getLast?_of_suffix (List.dropWhile_suffix p) h
  rw [List.getLast?_reverse] at h2
  exact head?_dropWhile_false _ h2

/-- The last character left by `stripWhile p` does not satisfy `p`. -/
theorem getLast?_stripWhile_false {p : Char → Bool} {a : Char} (l : List Char)
    (h : (stripWhile p l).getLast? = some a) : p a = false := by
  unfold stripWhile at h
  rw [List.getLast?_reverse] at h
  exact head?_dropWhile_false _ h

/-- Unfolds one successful iteration of the pagination loop. -/
theorem get_collection_ok {α : Type} (fetch : String → Except FetchError (PageData α))
    (base : String) (u : String) (f : ℕ) (d : PageData α) (h : fetch u = .ok d) :
    get_collection fetch base (some u) (f + 1) =
      FetchOutcome.prepend (d.elements.getD [])
        (get_collection fetch base (nextUrl base d) f) := by
  have hu : get_collection fetch base (some u) (f + 1) =
      match fetch u with
      | .error e => FetchOutcome.failed [] e
      | .ok p =>
        FetchOutcome.prepend (p.elements.getD [])
          (get_collection fetch base (nextUrl base p) f) := rfl
  rw [hu, h]

/-- Unfolds one failing iteration of the pagination loop. -/
theorem get_collection_err {α : Type} (fetch : String → Except FetchError (PageData α))
    (base : String) (u : String) (f : ℕ) (e : FetchError) (h : fetch u = .error e) :
    get_collection fetch base (some u) (f + 1) = FetchOutcome.failed [] e := by
  have hu : get_collection fetch base (some u) (f + 1) =
      match fetch u with
      | .error e2 => FetchOutcome.failed [] e2
      | .ok p =>
        FetchOutcome.prepend (p.elements.getD [])
          (get_collection fetch base (nextUrl base p) f) := rfl
  rw [hu, h]

/-! ## Claim theorems -/

/-- C1: for every finite paginated collection (each page holding a
possibly empty element list and an optional next link, the last page
having none), the fetcher yields exactly the concatenation of the page
element lists, in page order then within-page order, and stops after the
page without a next link (it ends in `.done`, not in `.fuelOut`, for any
iteration bound at least the number of pages).  The 3-page instance of
sizes 2, 2, 1 is the witness below. -/
theorem claim_C1_pagination {α : Type} (fetch : String → Except FetchError (PageData α))
    (base : String) (start : Option String) (pages : List (List α)) (fuel : ℕ)
    (hchain : PageChain fetch base start pages) (hfuel : pages.length ≤ fuel) :
    get_collection fetch base start fuel = .done pages.flatten := by
  induction hchain generalizing fuel with
  | nil => cases fuel <;> rfl
  | cons u d r hfetch hrest ih =>
    cases fuel with
    | zero => exact absurd hfuel (by simp)
    | succ f =>
      rw [get_collection_ok fetch base u f d hfetch,
        ih f (by simpa using Nat.lt_succ_iff.mp (Nat.lt_of_lt_of_le (Nat.lt_succ_self _) hfuel))]
      rfl

/-- C1 witness: the 3-page mock collection with page sizes 2, 2, 1 and no
next link on the last page yields exactly its 5 elements in
page-then-position order. -/
theorem claim_C1_witness :
    get_collection mockPages "https://op.example" (some "https://op.example/p1") 3 =
      .done [10, 11, 12, 13, 14] := by
  have hch : PageChain mockPages "https://op.example" (some "https://op.example/p1")
      [[10, 11], [12, 13], [14]] := by
    refine PageChain.cons _ ⟨some [10, 11], some "/p2"⟩ _ rfl ?_
    refine PageChain.cons _ ⟨some [12, 13], some "/p3"⟩ _ rfl ?_
    exact PageChain.cons _ ⟨some [14], none⟩ _ rfl PageChain.nil
  have h := claim_C1_pagination mockPages "https://op.example"
    (some "https://op.example/p1") [[10, 11], [12, 13], [14]] 3 hch (by norm_num)
  simpa using h

/-- C6: when some page request of a paginated collection fails, the
fetcher raises the `FetchError` only after all elements of the earlier,
successfully fetched pages have been yielded: the outcome is `.failed`
carrying exactly the concatenated elements of the successful prefix
(partial results, not retracted) together with the error.  Each page URL
is fetched once per loop iteration; no retry exists in the loop. -/
theorem claim_C6_partial_failure {α : Type} (fetch : String → Except FetchError (PageData α))
    (base : String) (start : Option String) (pages : List (List α)) (e : FetchError)
    (fuel : ℕ) (hchain : FailChain fetch base start pages e)
    (hfuel : pages.length < fuel) :
    get_collection fetch base start fuel = .failed pages.flatten e := by
  induction hchain generalizing fuel with
  | here u e2 hfetch =>
    cases fuel with
    | zero => exact absurd hfuel (by simp)
    | succ f => rw [get_collection_err fetch base u f e2 hfetch]; rfl
  | cons u d r e2 hfetch hrest ih =>
    cases fuel with
    | zero => exact absurd hfuel (by simp)
    | succ f =>
      rw [get_collection_ok fetch base u f d hfetch,
        ih f (by simpa using Nat.lt_of_succ_lt_succ hfuel)]
      rfl

/-- C6 witness: a collection whose second page request fails with an
HTTP error yields the 2 elements of the first page and then the error. -/
theorem claim_C6_witness :
    get_collection mockPagesFail "https://op.example" (some "https://op.example/p1") 5 =
      .failed [10, 11] (.httpError 500) := by
  have hch : FailChain mockPagesFail "https://op.example" (some "https://op.example/p1")
      [[10, 11]] (.httpError 500) := by
    refine FailChain.cons _ ⟨some [10, 11], some "/p2"⟩ _ _ rfl ?_
    exact FailChain.here _ _ rfl
  have h := claim_C6_partial_failure mockPagesFail "https://op.example"
    (some "https://op.example/p1") [[10, 11]] (.httpError 500) 5 hch (by norm_num)
  simpa using h

/-- C2: option resolution for a non-empty href not yet cached fetches
exactly once (count 1), fetches the option resource at the joined URL,
appends the value to the cache under the href, and returns it; a call
whose href is cached fetches zero times and returns the cached value
unchanged; any cached binding survives any later call unchanged
(write-once, never invalidated); a repeated call with the same href after
any first call returns the same value with zero additional fetches; and
an empty href returns the empty string with no fetch and no cache
mutation. -/
theorem claim_C2_option_cache :
    (∀ f b c, resolve_custom_option_value f b c "" = ("", c, 0)) ∧
    (∀ f b c u, u ≠ "" → List.lookup u c = none →
      resolve_custom_option_value f b c u =
        (f (pyUrljoin b u), c ++ [(u, f (pyUrljoin b u))], 1)) ∧
    (∀ f b c u v, u ≠ "" → List.lookup u c = some v →
      resolve_custom_option_value f b c u = (v, c, 0)) ∧
    (∀ f b c u k v, List.lookup k c = some v →
      List.lookup k (resolve_custom_option_value f b c u).2.1 = some v) ∧
    (∀ f b c u,
      resolve_custom_option_value f b (resolve_custom_option_value f b c u).2.1 u =
        ((resolve_custom_option_value f b c u).1,
         (resolve_custom_option_value f b c u).2.1, 0)) := by
  have hmiss : ∀ (f : String → String) b c u, u ≠ "" → List.lookup u c = none →
      resolve_custom_option_value f b c u =
        (f (pyUrljoin b u), c ++ [(u, f (pyUrljoin b u))], 1) := by
    intro f b c u hu hl
    unfold resolve_custom_option_value
    rw [if_neg hu, hl]
  have hhit : ∀ (f : String → String) b c u v, u ≠ "" → List.lookup u c = some v →
      resolve_custom_option_value f b c u = (v, c, 0) := by
    intro f b c u v hu hl
    unfold resolve_custom_option_value
    rw [if_neg hu, hl]
  refine ⟨fun f b c => rfl, hmiss, hhit, ?_, ?_⟩
  · intro f b c u k v hv
    by_cases hu : u = ""
    · subst hu
      exact hv
    · cases hl : List.lookup u c with
      | none =>
        rw [hmiss f b c u hu hl]
        exact lookup_append_left hv
      | some w =>
        rw [hhit f b c u w hu hl]
        exact hv
  · intro f b c u
    by_cases hu : u = ""
    · subst hu
      rfl
    · cases hl : List.lookup u c with
      | none =>
        have h1 := hmiss f b c u hu hl
        have h2 : List.lookup u (c ++ [(u, f (pyUrljoin b u))]) =
            some (f (pyUrljoin b u)) := by
          rw [lookup_append_right _ hl]
          simp [List.lookup]
        have h3 := hhit f b (c ++ [(u, f (pyUrljoin b u))]) u (f (pyUrljoin b u)) hu h2
        rw [h1]
        exact h3
      | some w =>
        have h1 := hhit f b c u w hu hl
        rw [h1]
        exact h1

/-- C2 witness: with an empty cache, resolving a concrete href fetches
once and caches the value; resolving again on the produced cache fetches
zero times and returns the same value; the empty href short-circuits. -/
theorem claim_C2_witness :
    resolve_custom_option_value mockOptionValue "https://op.example" []
      "/api/v3/custom_options/1" =
      ("Paris", [("/api/v3/custom_options/1", "Paris")], 1) ∧
    resolve_custom_option_value mockOptionValue "https://op.example"
      [("/api/v3/custom_options/1", "Paris")] "/api/v3/custom_options/1" =
      ("Paris", [("/api/v3/custom_options/1", "Paris")], 0) ∧
    resolve_custom_option_value mockOptionValue "https://op.example"
      [("/api/v3/custom_options/1", "Paris")] "" =
      ("", [("/api/v3/custom_options/1", "Paris")], 0) := by
  refine ⟨?_, ?_, ?_⟩
  · have h := claim_C2_option_cache.2.1 mockOptionValue "https://op.example" []
      "/api/v3/custom_options/1" (by decide) rfl
    exact h.trans (by decide)
  · have h := claim_C2_option_cache.2.2.1 mockOptionValue "https://op.example"
      [("/api/v3/custom_options/1", "Paris")] "/api/v3/custom_options/1" "Paris"
      (by decide) (by decide)
    exact h
  · exact claim_C2_option_cache.1 mockOptionValue "https://op.example"
      [("/api/v3/custom_options/1", "Paris")]

/-- C5: the duration decoder returns 0.0 on input the restricted grammar
rejects (and on the empty string), never raising, and on conforming input
returns H + M/60 + S/3600 rounded to 2 decimal places; in particular it
maps "" to 0.0, "garbage" to 0.0, "PT5H30M" to 5.5, and "PT45M" to
0.75. -/
theorem claim_C5_duration_decode :
    (∀ s, parseIsoDuration s = none → iso_duration_to_hours s = 0) ∧
    (∀ s h m c, parseIsoDuration s = some (h, m, c) →
      iso_duration_to_hours s = round2 ((h : ℚ) + (m : ℚ) / 60 + (c : ℚ) / 3600)) ∧
    iso_duration_to_hours "" = 0 ∧
    iso_duration_to_hours "garbage" = 0 ∧
    iso_duration_to_hours "PT5H30M" = 11 / 2 ∧
    iso_duration_to_hours "PT45M" = 3 / 4 := by
  refine ⟨iso_duration_of_no_parse, iso_duration_eq_round2, rfl,
    iso_duration_of_no_parse _ (by decide), ?_, ?_⟩
  · rw [iso_duration_eq_round2 "PT5H30M" 5 30 0 (by decide)]
    norm_num [round2, round_eq]
  · rw [iso_duration_eq_round2 "PT45M" 0 45 0 (by decide)]
    norm_num [round2, round_eq]

/-- C5 witness: a fresh conforming input evaluated through the conforming
case of the claim theorem. -/
theorem claim_C5_witness :
    parseIsoDuration "PT2H30M" = some (2, 30, 0) ∧
    iso_duration_to_hours "PT2H30M" = 5 / 2 := by
  refine ⟨by decide, ?_⟩
  rw [claim_C5_duration_decode.2.1 "PT2H30M" 2 30 0 (by decide)]
  norm_num [round2, round_eq]

/-- C7: for every string that parses as a year-month with a valid month
(and a year in the range the date constructor accepts), the resolver
returns the first and the last calendar day of that month, the last day
computed by the leap-aware days-in-month; in particular "2024-02" gives
(2024-02-01, 2024-02-29) and "2023-02" gives (2023-02-01, 2023-02-28). -/
theorem claim_C7_month_range :
    (∀ s y m, pyParseYM s = some (y, m) → 1 ≤ y → y ≤ 9999 → 1 ≤ m → m ≤ 12 →
      month_bounds s = .ok ((y, m, 1), (y, m, daysInMonth y m))) ∧
    month_bounds "2024-02" = .ok ((2024, 2, 1), (2024, 2, 29)) ∧
    month_bounds "2023-02" = .ok ((2023, 2, 1), (2023, 2, 28)) := by
  refine ⟨?_, rfl, rfl⟩
  intro s y m hp h1 h2 h3 h4
  have hd : (1 : ℤ) ≤ daysInMonth y m := one_le_daysInMonth y m
  simp only [month_bounds, hp]
  rw [show pyDate y m 1 = some (y, m, 1) from by
    unfold pyDate; exact if_pos ⟨h1, h2, h3, h4, by norm_num, hd⟩]
  rw [show pyDate y m (daysInMonth y m) = some (y, m, daysInMonth y m) from by
    unfold pyDate; exact if_pos ⟨h1, h2, h3, h4, hd, le_refl _⟩]

/-- C7 witness: the general case applied to the concrete month 2024-06,
whose last day the leap-aware table gives as 30. -/
theorem claim_C7_witness :
    month_bounds "2024-06" = .ok ((2024, 6, 1), (2024, 6, 30)) := by
  have h := claim_C7_month_range.1 "2024-06" 2024 6 (by decide) (by norm_num)
    (by norm_num) (by norm_num) (by norm_num)
  rw [h]
  norm_num [daysInMonth]

/-- C8: for every input string that does not parse as a year-month, or
whose month component lies outside 1..12, the resolver returns the
invalid-month error rather than any fallback value; the error value
propagates out of `month_bounds` (in the script it is an uncaught
`ValueError` raised before any network or file work, aborting the run). -/
theorem claim_C8_invalid_month (s : String) :
    pyParseYM s = none ∨ (∃ y m, pyParseYM s = some (y, m) ∧ (m < 1 ∨ 12 < m)) →
    month_bounds s = .error .invalidMonth := by
  intro h
  rcases h with h | ⟨y, m, hp, hm⟩
  · unfold month_bounds
    rw [h]
  · simp only [month_bounds, hp]
    rw [show pyDate y m 1 = none from by
      unfold pyDate
      rw [if_neg]
      rintro ⟨-, -, h3, h4, -⟩
      omega]

/-- C8 witness: an unparseable string and an out-of-range month both hit
the error case of the claim theorem. -/
theorem claim_C8_witness :
    month_bounds "garbage" = .error .invalidMonth ∧
    month_bounds "2024-13" = .error .invalidMonth :=
  ⟨claim_C8_invalid_month "garbage" (Or.inl (by decide)),
   claim_C8_invalid_month "2024-13" (Or.inr ⟨2024, 13, by decide, by norm_num⟩)⟩

/-- C9: `parse_entity_id` is total (the embedding returns a string for
every href; the script guards with try/except) and returns the trailing
segment of the slash-stripped path of the href, the empty string when
that path is empty; in particular "/api/v3/work_packages/42" gives "42",
"" gives "", and a full URL with query and fragment still gives the
trailing path segment. -/
theorem claim_C9_extract_id :
    parse_entity_id "/api/v3/work_packages/42" = "42" ∧
    parse_entity_id "" = "" ∧
    parse_entity_id "https://op.example/api/v3/users/9?offset=2#top" = "9" ∧
    (∀ href, parse_entity_id href =
      String.mk ((pySplit '/' (stripChar '/' (urlparsePath href)).data).getLastD [])) ∧
    (∀ href, urlparsePath href = "" → parse_entity_id href = "") := by
  refine ⟨by decide, by decide, by decide, fun href => rfl, fun href h => ?_⟩
  unfold parse_entity_id
  rw [h]
  rfl

/-- C9 witness: a href with an empty parsed path (query only) maps to the
empty identifier through the empty-path case of the claim theorem. -/
theorem claim_C9_witness : parse_entity_id "?offset=2" = "" :=
  claim_C9_extract_id.2.2.2.2 "?offset=2" rfl

/-- C4: the Location of a row follows the three-tier fallback of `main`:
with no (whitespace-stripped) custom-field key the location is always
"remote"; with a key naming a direct scalar field present on the entry
the location is that value, or "remote" when the value is null or empty;
otherwise the key is treated as a relation name and, when the link is
present with a non-empty href, the href is resolved through the option
resolver, an empty resolution falling back to "remote"; an absent or
empty link href gives "remote". -/
theorem claim_C4_location_fallback (f : String → String) (b k : String)
    (c : List (String × String)) (te : TimeEntry) :
    (pyStripWs k = "" → (buildRow f b k c te).1.location = "remote") ∧
    (∀ v, pyStripWs k ≠ "" → List.lookup (pyStripWs k) te.direct = some v →
      (buildRow f b k c te).1.location = pyOr (v.getD "") "remote") ∧
    (pyStripWs k ≠ "" → List.lookup (pyStripWs k) te.direct = none →
      linkHrefOf te (pyStripWs k) = "" →
      (buildRow f b k c te).1.location = "remote") ∧
    (pyStripWs k ≠ "" → List.lookup (pyStripWs k) te.direct = none →
      linkHrefOf te (pyStripWs k) ≠ "" →
      (buildRow f b k c te).1.location =
        pyOr (resolve_custom_option_value f b c (linkHrefOf te (pyStripWs k))).1
          "remote") := by
  refine ⟨?_, ?_, ?_, ?_⟩
  · intro hk
    show (computeLocation f b (pyStripWs k) c te).1 = "remote"
    rw [hk]
    rfl
  · intro v hk hv
    show (computeLocation f b (pyStripWs k) c te).1 = pyOr (v.getD "") "remote"
    simp only [computeLocation, if_neg hk, hv]
  · intro hk hv hl
    show (computeLocation f b (pyStripWs k) c te).1 = "remote"
    simp only [computeLocation, if_neg hk, hv, hl, if_pos]
  · intro hk hv hl
    show (computeLocation f b (pyStripWs k) c te).1 =
      pyOr (resolve_custom_option_value f b c (linkHrefOf te (pyStripWs k))).1 "remote"
    simp only [computeLocation, if_neg hk, hv, if_neg hl]

/-- C4 witness: the three tiers at concrete entries: no key configured;
a key naming a direct scalar value; a key naming a linked option that the
resolver turns into a value. -/
theorem claim_C4_witness :
    (buildRow (fun _ => "") "https://op.example" "" [] te_example).1.location = "remote" ∧
    (buildRow (fun _ => "") "https://op.example" " customField7 " [] te_direct).1.location =
      "Paris" ∧
    (buildRow mockOptionValue "https://op.example" "customField7" [] te_linked).1.location =
      "Paris" := by
  refine ⟨?_, ?_, ?_⟩
  · exact (claim_C4_location_fallback (fun _ => "") "https://op.example" "" []
      te_example).1 rfl
  · have h := (claim_C4_location_fallback (fun _ => "") "https://op.example"
      " customField7 " [] te_direct).2.1 (some "Paris") (by decide) (by decide)
    exact h.trans (by decide)
  · have h := (claim_C4_location_fallback mockOptionValue "https://op.example"
      "customField7" [] te_linked).2.2.2 (by decide) (by decide) (by decide)
    exact h.trans (by decide)

/-- C3 counterexample: at an entry whose comment text itself ends in an
underscore, the code composes "7_Development_x" (the final `strip("_")`
removes the underscore belonging to the comment text), while the claimed
composition (strip only the separators produced by empty leading or
trailing components, content untouched) gives "7_Development_x_". -/
theorem claim_C3_strip_counterexample :
    parse_entity_id (entityHrefOf te_cex) = "7" ∧
    activityTitleOf te_cex = "Development" ∧
    commentOf te_cex = "x_" ∧
    specComposed "7" "Development" "x_" = "7_Development_x_" ∧
    (buildRow (fun _ => "") "" "" [] te_cex).1.description = "7_Development_x" ∧
    (buildRow (fun _ => "") "" "" [] te_cex).1.description ≠
      specComposed (parse_entity_id (entityHrefOf te_cex)) (activityTitleOf te_cex)
        (commentOf te_cex) := by
  exact ⟨by decide, by decide, by decide, by decide, by decide, by decide⟩

/-- C3 (amended): the composed description is assignment id, activity
name and whitespace-collapsed comment joined with underscores and then
stripped of ALL leading and trailing underscores, whether these came from
separators next to empty components or from the text of the components
themselves; an empty middle component still leaves two adjacent
separators; the end-to-end example entry (entity 7, activity
Development, comment with extra whitespace) yields the full row with
description "7_Development_Fixed bug". -/
theorem claim_C3_amended_description (f : String → String) (b k : String)
    (c : List (String × String)) (te : TimeEntry) :
    ((buildRow f b k c te).1.description =
      stripChar '_'
        (parse_entity_id (entityHrefOf te) ++ "_" ++ activityTitleOf te ++ "_" ++
          commentOf te)) ∧
    stripChar '_' ("7" ++ "_" ++ "" ++ "_" ++ "x") = "7__x" ∧
    (buildRow (fun _ => "") "https://op.example" "" [] te_example).1.date =
      some "2024-03-05" ∧
    (buildRow (fun _ => "") "https://op.example" "" [] te_example).1.hours = 8 ∧
    (buildRow (fun _ => "") "https://op.example" "" [] te_example).1.location =
      "remote" ∧
    (buildRow (fun _ => "") "https://op.example" "" [] te_example).1.description =
      "7_Development_Fixed bug" := by
  refine ⟨rfl, by decide, by decide, ?_, by decide, by decide⟩
  show iso_duration_to_hours "PT8H" = 8
  rw [iso_duration_eq_round2 "PT8H" 8 0 0 (by decide)]
  norm_num [round2, round_eq]

/-- C10: the composed description never begins and never ends with the
separator character, even when the text of a non-empty component would
put an underscore at the boundary: the final strip removes every leading
and trailing underscore regardless of its origin. -/
theorem claim_C10_boundary_underscores (f : String → String) (b k : String)
    (c : List (String × String)) (te : TimeEntry) :
    (buildRow f b k c te).1.description.data.head? ≠ some '_' ∧
    (buildRow f b k c te).1.description.data.getLast? ≠ some '_' := by
  have e : (buildRow f b k c te).1.description =
      stripChar '_'
        (parse_entity_id (entityHrefOf te) ++ "_" ++ activityTitleOf te ++ "_" ++
          commentOf te) := rfl
  constructor
  · intro hcon
    rw [e, stripChar_data] at hcon
    exact absurd (head?_stripWhile_false _ hcon) (by decide)
  · intro hcon
    rw [e, stripChar_data] at hcon
    exact absurd (getLast?_stripWhile_false _ hcon) (by decide)
